import Mathlib

/-!
Verification of the jstack-analyzer core (scripts/jstack_analyzer.py):
block splitting, header/body parsing, state/family classification,
aggregation and deduplication, embedded shallowly over `List Char`.
Strings from the Python source are modelled as lists of characters
(`String.data`); Python's `str.strip`, `str.split('\n')`, `str.replace`
and the header regular expression are embedded as executable functions
with the same semantics on the inputs the program feeds them.
-/

namespace JStackA

/-- ASCII whitespace, as recognised by Python's default `str.strip()`. -/
def isSpaceChar (c : Char) : Bool :=
  c = ' ' || c = '\t' || c = '\n' || c = '\r' || c = '\x0b' || c = '\x0c'

/-- `[0-9]`, the regex class `\d` (restricted to ASCII). -/
def isDigitCh (c : Char) : Bool := '0' ≤ c && c ≤ '9'

/-- `[0-9a-f]`, the lowercase hex class used by the header pattern. -/
def isHexCh (c : Char) : Bool := isDigitCh c || ('a' ≤ c && c ≤ 'f')

/-- Python `s.strip()`: drop leading and trailing whitespace. -/
def pyStrip (l : List Char) : List Char :=
  ((l.dropWhile isSpaceChar).reverse.dropWhile isSpaceChar).reverse

/-- Python `s.split('\n')`: always at least one piece; empty pieces kept. -/
def splitOnNl : List Char → List (List Char)
  | [] => [[]]
  | c :: cs =>
    match splitOnNl cs with
    | [] => [[c]]
    | r :: rs => if c = '\n' then [] :: r :: rs else (c :: r) :: rs

/-- Fuel-driven core of `removeAll`; the fuel is always at least the
length of the scanned list, so the `0` case is never reached. -/
def removeAllAux (pat : List Char) : Nat → List Char → List Char
  | _, [] => []
  | 0, l => l
  | fuel + 1, c :: cs =>
    if !pat.isEmpty && pat.isPrefixOf (c :: cs) then
      removeAllAux pat fuel ((c :: cs).drop pat.length)
    else
      c :: removeAllAux pat fuel cs

/-- Python `s.replace(pat, '')` for a non-empty `pat`: delete every
occurrence of `pat`, scanning left to right, non-overlapping. -/
def removeAll (pat l : List Char) : List Char := removeAllAux pat l.length l

/-- Consume the literal `pat` at the front of `l`, or fail. -/
def dropLit (pat l : List Char) : Option (List Char) :=
  if pat.isPrefixOf l then some (l.drop pat.length) else none

/-- Consume a non-empty maximal run of characters satisfying `p`
(the deterministic reading of a greedy `X+` followed by a character
outside the class), returning the run and the remainder. -/
def span1 (p : Char → Bool) (l : List Char) : Option (List Char × List Char) :=
  if (l.takeWhile p).isEmpty then none else some (l.takeWhile p, l.dropWhile p)

/-- The capture groups of the thread-header regular expression
(`_parse_thread_block`, line 84); the trailing status text and the
optional bracketed address are matched but never stored by the code. -/
structure HeaderInfo where
  name : List Char
  thread_id : List Char
  daemon : Bool
  priority : List Char
  os_prio : List Char
  tid : List Char
  nid : List Char
deriving DecidableEq, Repr

/-- The part of the header pattern from `prio=` on:
`prio=(\d+)\s+os_prio=(\d+)\s+tid=0x([0-9a-f]+)\s+nid=(0x[0-9a-f]+)\s+(.+?)(?:\s+\[0x([0-9a-f]+)\])?$`.
Note that the `tid` group captures the hex digits only (the `0x` is
outside the group), while the `nid` group captures `0x` plus digits.
The tail `(.+?)(?:...)?$` succeeds on a stripped line exactly when at
least one character remains after the whitespace, because the lazy
status group can always grow to the end of the line. -/
def matchFromPrio (nm idDigits : List Char) (dm : Bool) (l : List Char) :
    Option HeaderInfo := do
  let a1 ← dropLit ("prio=").data l
  let (prioD, a2) ← span1 isDigitCh a1
  let (_, a3) ← span1 isSpaceChar a2
  let a4 ← dropLit ("os_prio=").data a3
  let (osD, a5) ← span1 isDigitCh a4
  let (_, a6) ← span1 isSpaceChar a5
  let a7 ← dropLit ("tid=0x").data a6
  let (tidHex, a8) ← span1 isHexCh a7
  let (_, a9) ← span1 isSpaceChar a8
  let a10 ← dropLit ("nid=0x").data a9
  let (nidHex, a11) ← span1 isHexCh a10
  let (_, a12) ← span1 isSpaceChar a11
  if a12.isEmpty then none
  else some { name := nm, thread_id := idDigits, daemon := dm,
              priority := prioD, os_prio := osD,
              tid := tidHex, nid := '0' :: 'x' :: nidHex }

/-- `re.match` of the header pattern
`^"([^"]+)"\s+#(\d+)\s+(daemon\s+)?prio=...$` on one (stripped) line.
The optional `(daemon\s+)?` group is tried first and the non-daemon
reading is used only if the rest of the pattern fails, mirroring the
backtracking of the regex engine. -/
def matchHeader (line : List Char) : Option HeaderInfo := do
  let b1 ← dropLit ['\x22'] line
  let (nm, b2) ← span1 (fun c => c != '\x22') b1
  let b3 ← dropLit ['\x22'] b2
  let (_, b4) ← span1 isSpaceChar b3
  let b5 ← dropLit ['#'] b4
  let (idDigits, b6) ← span1 isDigitCh b5
  let (_, b7) ← span1 isSpaceChar b6
  let withDaemon : Option HeaderInfo := do
    let d1 ← dropLit ("daemon").data b7
    let (_, d2) ← span1 isSpaceChar d1
    matchFromPrio nm idDigits true d2
  match withDaemon with
  | some h => some h
  | none => matchFromPrio nm idDigits false b7

/-- The `ThreadInfo` record of the source, with string fields as
character lists. -/
structure ThreadInfo where
  name : List Char
  thread_id : List Char
  daemon : Bool
  priority : List Char
  os_prio : List Char
  tid : List Char
  nid : List Char
  state : List Char
  stack_trace : List (List Char)
deriving DecidableEq, Repr

/-- The literal state-declaration marker `java.lang.Thread.State:`. -/
def stateMarker : List Char := ("java.lang.Thread.State:").data

/-- One iteration of the body loop of `_parse_thread_block`
(lines 97-102): strip the line; a line starting with the state marker
overwrites `state` with `line.replace(marker, '').strip()`; otherwise a
line starting with `at ` or `- ` is appended to the stack trace. -/
def bodyStep (acc : List Char × List (List Char)) (rawLine : List Char) :
    List Char × List (List Char) :=
  let l := pyStrip rawLine
  if stateMarker.isPrefixOf l then
    (pyStrip (removeAll stateMarker l), acc.2)
  else if ("at ").data.isPrefixOf l || ("- ").data.isPrefixOf l then
    (acc.1, acc.2 ++ [l])
  else
    acc

/-- `_parse_thread_block`: split the block into lines, match the header
pattern on the stripped first line (`None` on failure), then scan the
remaining lines for the state and the stack frames. -/
def parse_thread_block (block : List Char) : Option ThreadInfo :=
  match splitOnNl block with
  | [] => none
  | headerLine :: bodyLines =>
    match matchHeader (pyStrip headerLine) with
    | none => none
    | some h =>
      let sb := bodyLines.foldl bodyStep (("UNKNOWN").data, [])
      some { name := h.name, thread_id := h.thread_id, daemon := h.daemon,
             priority := h.priority, os_prio := h.os_prio,
             tid := h.tid, nid := h.nid,
             state := sb.1, stack_trace := sb.2 }

/-- The thread-record list built by `parse_jstack_output` (lines 52-55)
from an already-split list of blocks: blocks whose parse returns `None`
are silently skipped. -/
def parse_blocks (blocks : List (List Char)) : List ThreadInfo :=
  blocks.filterMap parse_thread_block

/-- Truthiness of `re.match(r'^"([^"]+)"', line)`: the line starts with
a double quote, a non-empty run of non-quote characters and a closing
quote. -/
def isBlockStart (line : List Char) : Bool :=
  match line with
  | [] => false
  | c :: rest =>
    c = '\x22' && !(rest.takeWhile (fun x => x != '\x22')).isEmpty &&
      !(rest.dropWhile (fun x => x != '\x22')).isEmpty

/-- One iteration of the loop of `_split_thread_blocks` (lines 64-69);
the accumulator is `(blocks, current_block)`, with the Python empty
string's falsiness rendered as the empty character list. -/
def splitStep (acc : List (List Char) × List Char) (line : List Char) :
    List (List Char) × List Char :=
  if isBlockStart line && !acc.2.isEmpty then
    (acc.1 ++ [pyStrip acc.2], line)
  else
    (acc.1, if acc.2.isEmpty then line else acc.2 ++ '\n' :: line)

/-- `_split_thread_blocks`: fold the loop over the lines, then flush the
final in-progress block if it is non-empty after stripping. -/
def split_thread_blocks (content : List Char) : List (List Char) :=
  let acc := (splitOnNl content).foldl splitStep ([], [])
  if (pyStrip acc.2).isEmpty then acc.1 else acc.1 ++ [pyStrip acc.2]

/-- The first line of a block's text (up to the first newline). -/
def firstLineOf (b : List Char) : List Char := b.takeWhile (fun c => c != '\n')

/-- A block "begins with a header-marker line": its first line matches
`^"([^"]+)"`. -/
def blockHeadIsMarker (b : List Char) : Bool := isBlockStart (firstLineOf b)

/-- Python's substring test `needle in hay`: `needle` occurs
contiguously somewhere in `hay` (an empty needle always occurs). -/
def substrOf (needle : List Char) : List Char → Bool
  | [] => needle.isEmpty
  | c :: cs => needle.isPrefixOf (c :: cs) || substrOf needle cs

/-- The fixed, ordered pattern table of `_get_thread_group`
(lines 144-157); iteration order of a Python dict literal is insertion
order. -/
def groupTable : List (List Char × List Char) :=
  [(("nioEventLoopGroup").data, ("Netty NIO").data),
   (("grpc").data, ("gRPC").data),
   (("OkHttp").data, ("OkHttp").data),
   (("pool-").data, ("Thread Pool").data),
   (("Keep-Alive").data, ("HTTP Keep-Alive").data),
   (("Attach Listener").data, ("JVM Attach").data),
   (("Finalizer").data, ("JVM Finalizer").data),
   (("Reference Handler").data, ("JVM Reference").data),
   (("Signal Dispatcher").data, ("JVM Signal").data),
   (("C2 CompilerThread").data, ("JIT Compiler").data),
   (("VM Thread").data, ("JVM VM").data),
   (("Safepoint").data, ("JVM Safepoint").data)]

/-- The loop of `_get_thread_group`: return the label of the first table
entry whose pattern is a substring of the name (`pattern in thread_name`),
else `Other`. -/
def lookupGroup : List (List Char × List Char) → List Char → List Char
  | [], _ => ("Other").data
  | (pat, grp) :: rest, nm =>
    if substrOf pat nm then grp else lookupGroup rest nm

/-- `_get_thread_group`. -/
def get_thread_group (nm : List Char) : List Char := lookupGroup groupTable nm

/-- The family classification exactly as the specification words it:
the label of the first pair (in table order) whose substring occurs
anywhere in the name; `Other` when none matches. Stated with `find?`
so it can be compared with the loop-based `get_thread_group`. -/
def specFamilyClassify (nm : List Char) : List Char :=
  match groupTable.find? (fun p => substrOf p.1 nm) with
  | some p => p.2
  | none => ("Other").data

/-- A Python `Counter` as an insertion-ordered association list:
`counter[k] += 1`. -/
def bumpKey : List (List Char × Nat) → List Char → List (List Char × Nat)
  | [], k => [(k, 1)]
  | (k2, n) :: rest, k =>
    if k2 = k then (k2, n + 1) :: rest else (k2, n) :: bumpKey rest k

/-- A Python `defaultdict(list)` as an insertion-ordered association
list: `groups[k].append(t)`. -/
def addToGroup : List (List Char × List ThreadInfo) → List Char → ThreadInfo →
    List (List Char × List ThreadInfo)
  | [], k, t => [(k, [t])]
  | (k2, ts) :: rest, k, t =>
    if k2 = k then (k2, ts ++ [t]) :: rest else (k2, ts) :: addToGroup rest k t

/-- The `stats` dictionary of `analyze_threads`. -/
structure Stats where
  total_threads : Nat
  daemon_threads : Nat
  non_daemon_threads : Nat
  states : List (List Char × Nat)
  thread_groups : List (List Char × List ThreadInfo)
  blocked_threads : List ThreadInfo
  waiting_threads : List ThreadInfo
  runnable_threads : List ThreadInfo
  stack_traces : List (List Char × Nat)
deriving DecidableEq, Repr

/-- One iteration of the loop of `analyze_threads` (lines 122-138):
group by name pattern; `if 'BLOCKED' in state ... elif 'WAITING' in
state or 'TIMED_WAITING' in state ... elif 'RUNNABLE' in state` (all
case-sensitive substring tests on the raw state); count the first
stack frame only when the stack is non-empty (the inner
`... if thread.stack_trace else "empty"` is therefore dead in its
`"empty"` branch, exactly as in the source). -/
def analyzeStep (acc : Stats) (t : ThreadInfo) : Stats :=
  let acc := { acc with thread_groups := addToGroup acc.thread_groups (get_thread_group t.name) t }
  let acc :=
    if substrOf (("BLOCKED").data) t.state then
      { acc with blocked_threads := acc.blocked_threads ++ [t] }
    else if substrOf (("WAITING").data) t.state || substrOf (("TIMED_WAITING").data) t.state then
      { acc with waiting_threads := acc.waiting_threads ++ [t] }
    else if substrOf (("RUNNABLE").data) t.state then
      { acc with runnable_threads := acc.runnable_threads ++ [t] }
    else acc
  if !t.stack_trace.isEmpty then
    let key := match t.stack_trace with | f :: _ => f | [] => ("empty").data
    { acc with stack_traces := bumpKey acc.stack_traces key }
  else acc

/-- The condition under which the loop appends to `blocked_threads`:
`'BLOCKED' in thread.state` (case-sensitive). -/
def blockedP (t : ThreadInfo) : Bool := substrOf (("BLOCKED").data) t.state

/-- The condition under which the loop appends to `waiting_threads`:
not blocked, and `'WAITING' in state or 'TIMED_WAITING' in state`. -/
def waitingP (t : ThreadInfo) : Bool :=
  !blockedP t &&
    (substrOf (("WAITING").data) t.state ||
     substrOf (("TIMED_WAITING").data) t.state)

/-- The condition under which the loop appends to `runnable_threads`:
neither of the previous branches taken, and `'RUNNABLE' in state`. -/
def runnableP (t : ThreadInfo) : Bool :=
  !blockedP t &&
    !(substrOf (("WAITING").data) t.state ||
      substrOf (("TIMED_WAITING").data) t.state) &&
    substrOf (("RUNNABLE").data) t.state

/-- `analyze_threads`: the scalar counts and the `states` counter are
built by their own comprehensions (lines 109-119), the remaining fields
by the single loop over the threads. -/
def analyze_threads (threads : List ThreadInfo) : Stats :=
  let base : Stats :=
    { total_threads := threads.length,
      daemon_threads := (threads.filter (fun t => t.daemon)).length,
      non_daemon_threads := (threads.filter (fun t => !t.daemon)).length,
      states := threads.foldl (fun m t => bumpKey m t.state) [],
      thread_groups := [], blocked_threads := [], waiting_threads := [],
      runnable_threads := [], stack_traces := [] }
  threads.foldl analyzeStep base

/-- The percentage computation of `generate_html_report`
(`(count / total) * 100 if total > 0 else 0`), with real division
modelled over `ℚ`. -/
def pctOf (count total : Nat) : ℚ :=
  if 0 < total then ((count : ℚ) / (total : ℚ)) * 100 else 0

/-- `re.sub(r'-\d+$', '', name)`: if the name ends in a non-empty digit
run immediately preceded by a hyphen, delete the hyphen and that run;
otherwise leave the name unchanged.  (The regex can match only once,
anchored at the end; the match consumes the maximal trailing digit
run together with the `-` just before it.) -/
def subHyphenDigits (nm : List Char) : List Char :=
  if (nm.reverse.takeWhile isDigitCh).isEmpty then nm
  else
    match nm.reverse.dropWhile isDigitCh with
    | '-' :: rest => rest.reverse
    | _ => nm

/-- `re.sub(r'\d+$', '', name)`: delete the maximal trailing digit run. -/
def subTrailingDigits (nm : List Char) : List Char :=
  (nm.reverse.dropWhile isDigitCh).reverse

/-- The normalized base-name key of
`_deduplicate_threads_by_name_pattern` (lines 448-450). -/
def baseKey (nm : List Char) : List Char :=
  pyStrip (subTrailingDigits (subHyphenDigits nm))

/-- The loop of `_deduplicate_threads_by_name_pattern`, with the
`seen_groups` set carried as a list of keys. -/
def dedupAux (seen : List (List Char)) : List ThreadInfo → List ThreadInfo
  | [] => []
  | t :: ts =>
    if baseKey t.name ∈ seen then dedupAux seen ts
    else t :: dedupAux (baseKey t.name :: seen) ts

/-- `_deduplicate_threads_by_name_pattern`. -/
def deduplicate_threads_by_name_pattern (threads : List ThreadInfo) : List ThreadInfo :=
  dedupAux [] threads

/-- `_get_state_class` (lines 461-473): the case-insensitive CSS-class
classifier.  Lower-casing is modelled on ASCII letters. -/
def lowerCh (c : Char) : Char :=
  if 'A' ≤ c && c ≤ 'Z' then Char.ofNat (c.toNat + 32) else c

/-- `state.lower()` on ASCII text. -/
def pyLower (l : List Char) : List Char := l.map lowerCh

/-- `_get_state_class`. -/
def get_state_class (state : List Char) : List Char :=
  let sl := pyLower state
  if substrOf (("runnable").data) sl then ("state-runnable").data
  else if substrOf (("waiting").data) sl && !(substrOf (("timed").data) sl) then
    ("state-waiting").data
  else if substrOf (("timed_waiting").data) sl || substrOf (("timed waiting").data) sl then
    ("state-timed_waiting").data
  else if substrOf (("blocked").data) sl then ("state-blocked").data
  else ("state-other").data

/-- The specification's reading of the body-parser state rule (for the
comparison in C2): the state comes from the FIRST matching line, taking
the portion after the prefix, trimmed. -/
def specStateFirst (bodyLines : List (List Char)) : List Char :=
  match (bodyLines.map pyStrip).find? (fun l => stateMarker.isPrefixOf l) with
  | some l => pyStrip (l.drop stateMarker.length)
  | none => ("UNKNOWN").data

/-- An in-progress block of the splitter that started at a header-marker
line: a quote, a non-empty quote-free and newline-free name, the closing
quote, and arbitrary following text. -/
def markerShaped (cur : List Char) : Prop :=
  ∃ nm w, nm ≠ [] ∧ (∀ c ∈ nm, c ≠ '\x22' ∧ c ≠ '\n') ∧
    cur = ('\x22' :: nm) ++ ('\x22' :: w)

/-- The invariant carried through the splitter loop: all finished blocks
other than the first begin with a header-marker line, and once a block
has been emitted the in-progress text always starts at a marker line. -/
def splitInv (acc : List (List Char) × List Char) : Prop :=
  (∀ b ∈ acc.1.tail, blockHeadIsMarker b = true) ∧
    (acc.1 ≠ [] → markerShaped acc.2)

end JStackA

-- quick evaluation sanity checks (kernel-reducible definitions)
example : JStackA.pyStrip ("  ab c  ").data = ("ab c").data := by decide
example : JStackA.splitOnNl ("a\nb\n").data = [['a'], ['b'], []] := by decide
example : JStackA.removeAll ("ab").data ("xabyab").data = ['x', 'y'] := by decide

-- Scenario A of the spec: one well-formed block parses fully.
example :
    (JStackA.parse_thread_block
      ("\x22Thread-1\x22 #10 prio=5 os_prio=0 tid=0x01 nid=0x02 runnable\n   java.lang.Thread.State: RUNNABLE\n\tat com.example.Foo.bar(Foo.java:10)").data) =
    some { name := ("Thread-1").data, thread_id := ("10").data, daemon := false,
           priority := ['5'], os_prio := ['0'], tid := ['0', '1'], nid := ("0x02").data,
           state := ("RUNNABLE").data,
           stack_trace := [("at com.example.Foo.bar(Foo.java:10)").data] } := by
  decide

-- Scenario B: the daemon keyword flips the flag and nothing else.
example :
    (JStackA.parse_thread_block
      ("\x22T\x22 #10 daemon prio=5 os_prio=0 tid=0x01 nid=0x02 runnable").data).map
        JStackA.ThreadInfo.daemon = some true := by decide

-- The splitter keeps leading banner lines as a first, marker-less block.
example :
    JStackA.split_thread_blocks ("2024-01-01\n\x22a\x22 #1 x\n\x22b\x22 #2 y").data =
      [("2024-01-01").data, ("\x22a\x22 #1 x").data, ("\x22b\x22 #2 y").data] := by
  decide

namespace JStackA

/-! ### Generic helper lemmas -/

theorem splitOnNl_ne_nil (l : List Char) : splitOnNl l ≠ [] := by
  cases l with
  | nil => simp [splitOnNl]
  | cons c cs =>
    simp only [splitOnNl]
    split
    · simp
    · split <;> simp

theorem no_nl_of_mem_splitOnNl :
    ∀ (content l : List Char), l ∈ splitOnNl content → ∀ c ∈ l, c ≠ '\n' := by
  intro content
  induction content with
  | nil => intro l hl; simp [splitOnNl] at hl; simp [hl]
  | cons c cs ih =>
    intro l hl
    simp only [splitOnNl] at hl
    cases h : splitOnNl cs with
    | nil => exact absurd h (splitOnNl_ne_nil cs)
    | cons r rs =>
      rw [h] at hl
      by_cases hc : c = '\n'
      · simp [hc] at hl
        rcases hl with hl | hl | hl
        · simp [hl]
        · rw [hl]; exact ih r (by rw [h]; exact List.mem_cons_self r rs)
        · exact ih l (by rw [h]; exact List.mem_cons_of_mem r hl)
      · simp [hc] at hl
        rcases hl with hl | hl
        · subst hl
          intro x hx
          rcases List.mem_cons.mp hx with hx | hx
          · simpa [hx] using hc
          · exact ih r (by rw [h]; exact List.mem_cons_self r rs) x hx
        · exact ih l (by rw [h]; exact List.mem_cons_of_mem r hl)

theorem dropLit_eq (pat l r : List Char) (h : dropLit pat l = some r) :
    l = pat ++ r := by
  unfold dropLit at h
  split at h
  · rename_i hp
    rw [List.isPrefixOf_iff_prefix] at hp
    obtain ⟨t, rfl⟩ := hp
    simp at h
    rw [h]
  · exact absurd h (by simp)

theorem span1_eq (p : Char → Bool) (l d r : List Char)
    (h : span1 p l = some (d, r)) :
    l = d ++ r ∧ d ≠ [] ∧ ∀ c ∈ d, p c = true := by
  unfold span1 at h
  split at h
  · exact absurd h (by simp)
  · rename_i hne
    simp only [Option.some_inj, Prod.mk.injEq] at h
    obtain ⟨hd, hr⟩ := h
    subst hd; subst hr
    refine ⟨(List.takeWhile_append_dropWhile p l).symm, ?_, ?_⟩
    · simpa [List.isEmpty_iff] using hne
    · intro c hc; exact List.mem_takeWhile_imp hc

/-- The head of a non-empty `dropWhile` result falsifies the predicate. -/
theorem dropWhile_head_false (p : Char → Bool) :
    ∀ l : List Char, ∀ c cs, l.dropWhile p = c :: cs → p c = false := by
  intro l
  induction l with
  | nil => intro c cs h; simp at h
  | cons x xs ih =>
    intro c cs h
    rw [List.dropWhile_cons] at h
    by_cases hx : p x
    · simp [hx] at h; exact ih c cs h
    · simp [hx] at h; rw [← h.1]; simp [hx]

theorem takeWhile_of_all (p : Char → Bool) :
    ∀ l : List Char, (∀ c ∈ l, p c = true) → l.takeWhile p = l := by
  intro l
  induction l with
  | nil => simp
  | cons x xs ih =>
    intro h
    rw [List.takeWhile_cons, if_pos (h x (List.mem_cons_self x xs))]
    rw [ih (fun c hc => h c (List.mem_cons_of_mem x hc))]

end JStackA

namespace JStackA

/-! ### Header-pattern reconstruction -/

/-- What a successful match of the tail of the header pattern tells us:
the captured fields are exactly the ones passed down plus the hex runs
read after `tid=0x` and `nid=0x`; in particular the stored `tid` is the
digit run without the `0x` prefix, while the stored `nid` is `0x`
followed by the digit run, both present verbatim in the matched text. -/
theorem matchFromPrio_shape (nm idD : List Char) (dm : Bool) (l : List Char)
    (h : HeaderInfo) (hm : matchFromPrio nm idD dm l = some h) :
    h.name = nm ∧ h.thread_id = idD ∧ h.daemon = dm ∧
    h.tid ≠ [] ∧ (∀ c ∈ h.tid, isHexCh c = true) ∧
    ∃ a b c nd, h.nid = '0' :: 'x' :: nd ∧ nd ≠ [] ∧
      (∀ x ∈ nd, isHexCh x = true) ∧
      l = a ++ ("tid=0x").data ++ h.tid ++ b ++ ("nid=0x").data ++ nd ++ c := by
  simp only [matchFromPrio, bind, Option.bind_eq_some] at hm
  obtain ⟨a1, ha1, hm⟩ := hm
  obtain ⟨⟨prioD, a2⟩, ha2, hm⟩ := hm
  obtain ⟨⟨w1, a3⟩, ha3, hm⟩ := hm
  obtain ⟨a4, ha4, hm⟩ := hm
  obtain ⟨⟨osD, a5⟩, ha5, hm⟩ := hm
  obtain ⟨⟨w2, a6⟩, ha6, hm⟩ := hm
  obtain ⟨a7, ha7, hm⟩ := hm
  obtain ⟨⟨tidHex, a8⟩, ha8, hm⟩ := hm
  obtain ⟨⟨w3, a9⟩, ha9, hm⟩ := hm
  obtain ⟨a10, ha10, hm⟩ := hm
  obtain ⟨⟨nidHex, a11⟩, ha11, hm⟩ := hm
  obtain ⟨⟨w4, a12⟩, ha12, hm⟩ := hm
  dsimp only at ha1 ha2 ha3 ha4 ha5 ha6 ha7 ha8 ha9 ha10 ha11 ha12 hm
  split at hm
  · exact absurd hm (by simp)
  · have hrec := Option.some_inj.mp hm
    subst hrec
    have e1 := dropLit_eq _ _ _ ha1
    have e2 := span1_eq _ _ _ _ ha2
    have e3 := span1_eq _ _ _ _ ha3
    have e4 := dropLit_eq _ _ _ ha4
    have e5 := span1_eq _ _ _ _ ha5
    have e6 := span1_eq _ _ _ _ ha6
    have e7 := dropLit_eq _ _ _ ha7
    have e8 := span1_eq _ _ _ _ ha8
    have e9 := span1_eq _ _ _ _ ha9
    have e10 := dropLit_eq _ _ _ ha10
    have e11 := span1_eq _ _ _ _ ha11
    have e12 := span1_eq _ _ _ _ ha12
    refine ⟨rfl, rfl, rfl, e8.2.1, fun c hc => e8.2.2 c hc, ?_⟩
    refine ⟨("prio=").data ++ prioD ++ w1 ++ ("os_prio=").data ++ osD ++ w2,
      w3, w4 ++ a12, nidHex, rfl, e11.2.1, fun x hx => e11.2.2 x hx, ?_⟩
    rw [e1, e2.1, e3.1, e4, e5.1, e6.1, e7, e8.1, e9.1, e10, e11.1, e12.1]
    simp [List.append_assoc]

/-- What a successful header match tells us about the captured name,
`tid` and `nid` (see `matchFromPrio_shape`); the name is the non-empty
quote-free run between the opening and closing quotes. -/
theorem matchHeader_shape (line : List Char) (h : HeaderInfo)
    (hm : matchHeader line = some h) :
    h.name ≠ [] ∧ (∀ c ∈ h.name, c ≠ '\x22') ∧
    h.tid ≠ [] ∧ (∀ c ∈ h.tid, isHexCh c = true) ∧
    ∃ a b c nd, h.nid = '0' :: 'x' :: nd ∧ nd ≠ [] ∧
      (∀ x ∈ nd, isHexCh x = true) ∧
      line = a ++ ("tid=0x").data ++ h.tid ++ b ++ ("nid=0x").data ++ nd ++ c := by
  simp only [matchHeader, bind, Option.bind_eq_some] at hm
  obtain ⟨b1, hb1, hm⟩ := hm
  obtain ⟨⟨nm, b2⟩, hb2, hm⟩ := hm
  obtain ⟨b3, hb3, hm⟩ := hm
  obtain ⟨⟨w0, b4⟩, hb4, hm⟩ := hm
  obtain ⟨b5, hb5, hm⟩ := hm
  obtain ⟨⟨idD, b6⟩, hb6, hm⟩ := hm
  obtain ⟨⟨w1, b7⟩, hb7, hm⟩ := hm
  dsimp only at hb1 hb2 hb3 hb4 hb5 hb6 hb7 hm
  have f1 := dropLit_eq _ _ _ hb1
  have f2 := span1_eq _ _ _ _ hb2
  have f3 := dropLit_eq _ _ _ hb3
  have f4 := span1_eq _ _ _ _ hb4
  have f5 := dropLit_eq _ _ _ hb5
  have f6 := span1_eq _ _ _ _ hb6
  have f7 := span1_eq _ _ _ _ hb7
  have hnmq : ∀ c ∈ nm, c ≠ '\x22' := by
    intro c hc
    have := f2.2.2 c hc
    simpa using this
  split at hm
  · rename_i h0 hw
    -- daemon branch succeeded
    simp only [bind, Option.bind_eq_some] at hw
    obtain ⟨d1, hd1, hw⟩ := hw
    obtain ⟨⟨w2, d2⟩, hd2, hw⟩ := hw
    dsimp only at hd1 hd2 hw
    have g1 := dropLit_eq _ _ _ hd1
    have g2 := span1_eq _ _ _ _ hd2
    have hs := matchFromPrio_shape _ _ _ _ _ hw
    have heq := Option.some_inj.mp hm
    subst heq
    obtain ⟨hname, hid, hdm, htne, hthex, a, b, c, nd, hnid, hnd, hndhex, hdec⟩ := hs
    refine ⟨by rw [hname]; exact f2.2.1, by rw [hname]; exact hnmq, htne, hthex,
      ⟨['\x22'] ++ nm ++ ['\x22'] ++ w0 ++ ['#'] ++ idD ++ w1 ++ ("daemon").data ++ w2 ++ a,
       b, c, nd, hnid, hnd, hndhex, ?_⟩⟩
    rw [f1, f2.1, f3, f4.1, f5, f6.1, f7.1, g1, g2.1, hdec]
    simp [List.append_assoc]
  · rename_i h0 hw
    -- daemon branch failed; plain branch used
    have hs := matchFromPrio_shape _ _ _ _ _ hm
    obtain ⟨hname, hid, hdm, htne, hthex, a, b, c, nd, hnid, hnd, hndhex, hdec⟩ := hs
    refine ⟨by rw [hname]; exact f2.2.1, by rw [hname]; exact hnmq, htne, hthex,
      ⟨['\x22'] ++ nm ++ ['\x22'] ++ w0 ++ ['#'] ++ idD ++ w1 ++ a,
       b, c, nd, hnid, hnd, hndhex, ?_⟩⟩
    rw [f1, f2.1, f3, f4.1, f5, f6.1, f7.1, hdec]
    simp [List.append_assoc]

end JStackA

namespace JStackA

/-! ### Body parsing: the state comes from the last marker line -/

/-- The state component of the body fold: the LAST line whose stripped
text starts with the state marker wins (each matching line overwrites
the previous value), and the initial value survives only when no line
matches.  Stated via `find?` on the reversed line list. -/
theorem bodyFold_state (lines : List (List Char)) :
    ∀ (s0 : List Char) (st0 : List (List Char)),
      (lines.foldl bodyStep (s0, st0)).1 =
        match ((lines.map pyStrip).reverse.find? fun l => stateMarker.isPrefixOf l) with
        | some l => pyStrip (removeAll stateMarker l)
        | none => s0 := by
  induction lines with
  | nil => intro s0 st0; simp
  | cons x xs ih =>
    intro s0 st0
    rw [List.foldl_cons]
    rw [List.map_cons, List.reverse_cons, List.find?_append]
    by_cases hx : stateMarker.isPrefixOf (pyStrip x)
    · rw [show bodyStep (s0, st0) x = (pyStrip (removeAll stateMarker (pyStrip x)), st0) from by
        simp [bodyStep, hx]]
      rw [ih]
      cases hf : ((xs.map pyStrip).reverse.find? fun l => stateMarker.isPrefixOf l) with
      | some y => simp
      | none => simp [List.find?, hx]
    · have hbs : ∃ st2, bodyStep (s0, st0) x = (s0, st2) := by
        unfold bodyStep
        rw [if_neg (by simpa using hx)]
        split
        · exact ⟨_, rfl⟩
        · exact ⟨_, rfl⟩
      obtain ⟨st2, hst⟩ := hbs
      rw [hst, ih]
      cases hf : ((xs.map pyStrip).reverse.find? fun l => stateMarker.isPrefixOf l) with
      | some y => simp
      | none => simp [List.find?, hx]

/-- Unfolding of a successful `parse_thread_block`: the line split, the
header match, and the field-by-field description of the record. -/
theorem parse_block_inv (block : List Char) (rec : ThreadInfo)
    (h : parse_thread_block block = some rec) :
    ∃ hd tl hi, splitOnNl block = hd :: tl ∧
      matchHeader (pyStrip hd) = some hi ∧
      rec.name = hi.name ∧ rec.thread_id = hi.thread_id ∧
      rec.daemon = hi.daemon ∧ rec.priority = hi.priority ∧
      rec.os_prio = hi.os_prio ∧ rec.tid = hi.tid ∧ rec.nid = hi.nid ∧
      rec.state = (tl.foldl bodyStep (("UNKNOWN").data, [])).1 ∧
      rec.stack_trace = (tl.foldl bodyStep (("UNKNOWN").data, [])).2 := by
  unfold parse_thread_block at h
  cases hs : splitOnNl block with
  | nil => rw [hs] at h; simp at h
  | cons hd tl =>
    rw [hs] at h
    dsimp only at h
    cases hh : matchHeader (pyStrip hd) with
    | none => rw [hh] at h; simp at h
    | some hi =>
      rw [hh] at h
      dsimp only at h
      simp only [Option.some_inj] at h
      refine ⟨hd, tl, hi, rfl, hh, ?_⟩
      rw [← h]
      exact ⟨rfl, rfl, rfl, rfl, rfl, rfl, rfl, rfl, rfl⟩

/-- The state of any successfully parsed block, in closed form (helper
shared by the body-parser and invariant claims). -/
theorem parse_block_state_char (block : List Char) (rec : ThreadInfo)
    (h : parse_thread_block block = some rec) :
    rec.state =
      match (((splitOnNl block).tail.map pyStrip).reverse.find?
          fun l => stateMarker.isPrefixOf l) with
      | some l => pyStrip (removeAll stateMarker l)
      | none => ("UNKNOWN").data := by
  obtain ⟨hd, tl, hi, hs, _, _, _, _, _, _, _, _, hst, _⟩ := parse_block_inv block rec h
  rw [hs, hst, bodyFold_state]
  rfl

/-- A block whose (stripped) first line fails the header pattern is
parsed to `None`. -/
theorem parse_block_none (b : List Char)
    (h : matchHeader (pyStrip ((splitOnNl b).headD [])) = none) :
    parse_thread_block b = none := by
  unfold parse_thread_block
  cases hs : splitOnNl b with
  | nil => rfl
  | cons hd tl =>
    rw [hs] at h
    simp only [List.headD_cons] at h
    dsimp only
    rw [h]

end JStackA

namespace JStackA

/-! ### Splitter: blocks after the first begin at header-marker lines -/

theorem isBlockStart_shape (nm w : List Char) (hnm : nm ≠ [])
    (hq : ∀ c ∈ nm, c ≠ '\x22') :
    isBlockStart (('\x22' :: nm) ++ ('\x22' :: w)) = true := by
  rw [List.cons_append]
  simp only [isBlockStart]
  rw [List.takeWhile_append_of_pos (by intro a ha; simpa using hq a ha)]
  rw [List.dropWhile_append_of_pos (by intro a ha; simpa using hq a ha)]
  rw [List.takeWhile_cons, List.dropWhile_cons]
  simp [hnm]

theorem markerShaped_of_isBlockStart (line : List Char)
    (hbs : isBlockStart line = true) (hnl : ∀ c ∈ line, c ≠ '\n') :
    markerShaped line := by
  cases line with
  | nil => simp [isBlockStart] at hbs
  | cons c rest =>
    simp only [isBlockStart, Bool.and_eq_true, Bool.not_eq_true',
      decide_eq_true_eq] at hbs
    obtain ⟨⟨hc, h1⟩, h2⟩ := hbs
    subst hc
    cases hz : rest.dropWhile (fun x => x != '\x22') with
    | nil => rw [hz] at h2; simp at h2
    | cons z zs =>
      have hzq : z = '\x22' := by
        simpa using dropWhile_head_false (fun x => x != '\x22') rest z zs hz
      subst hzq
      refine ⟨rest.takeWhile (fun x => x != '\x22'), zs, ?_, ?_, ?_⟩
      · intro hcon; rw [hcon] at h1; simp at h1
      · intro a ha
        refine ⟨by simpa using List.mem_takeWhile_imp ha, ?_⟩
        exact hnl a (List.mem_cons_of_mem _ ((List.takeWhile_sublist _).subset ha))
      · rw [List.cons_append]
        have hr : rest.takeWhile (fun x => x != '\x22') ++
            rest.dropWhile (fun x => x != '\x22') = rest :=
          List.takeWhile_append_dropWhile _ _
        rw [hz] at hr
        rw [hr]

theorem markerShaped_append (cur more : List Char) (h : markerShaped cur) :
    markerShaped (cur ++ more) := by
  obtain ⟨nm, w, hnm, hq, rfl⟩ := h
  exact ⟨nm, w ++ more, hnm, hq, by simp⟩

theorem markerShaped_ne_nil (cur : List Char) (h : markerShaped cur) :
    cur ≠ [] := by
  obtain ⟨nm, w, _, _, rfl⟩ := h
  simp

/-- `dropWhile` keeps any suffix that starts with a character falsifying
the predicate. -/
theorem dropWhile_append_keep (q : Char → Bool) (w xs : List Char) (c : Char)
    (hc : q c = false) :
    ∃ u, (w ++ (c :: xs)).dropWhile q = u ++ (c :: xs) := by
  rw [List.dropWhile_append]
  by_cases h : (w.dropWhile q).isEmpty
  · rw [if_pos h]
    exact ⟨[], by rw [List.dropWhile_cons, hc]; simp⟩
  · rw [if_neg h]
    exact ⟨w.dropWhile q, rfl⟩

/-- Stripping a string that begins with the marker prefix
`"name"` keeps that prefix intact. -/
theorem pyStrip_marker (nm w : List Char) :
    ∃ w2, pyStrip (('\x22' :: (nm ++ ['\x22'])) ++ w) =
      ('\x22' :: (nm ++ ['\x22'])) ++ w2 := by
  unfold pyStrip
  have hsp : isSpaceChar '\x22' = false := by decide
  rw [List.cons_append, List.dropWhile_cons, hsp]
  simp only [Bool.false_eq_true, if_false]
  have hrev : ('\x22' :: ((nm ++ ['\x22']) ++ w)).reverse =
      w.reverse ++ ('\x22' :: (nm.reverse ++ ['\x22'])) := by
    simp
  rw [hrev]
  obtain ⟨u, hu⟩ := dropWhile_append_keep isSpaceChar w.reverse
    (nm.reverse ++ ['\x22']) '\x22' hsp
  rw [hu]
  refine ⟨u.reverse, ?_⟩
  simp [List.reverse_append]

/-- Stripping an in-progress block that starts at a marker line leaves
a block whose first line is still a marker line. -/
theorem blockHeadIsMarker_pyStrip (cur : List Char) (h : markerShaped cur) :
    blockHeadIsMarker (pyStrip cur) = true := by
  obtain ⟨nm, w, hnm, hq, rfl⟩ := h
  have hcur : ('\x22' :: nm) ++ ('\x22' :: w) =
      ('\x22' :: (nm ++ ['\x22'])) ++ w := by simp
  rw [hcur]
  obtain ⟨w2, hw2⟩ := pyStrip_marker nm w
  rw [hw2]
  unfold blockHeadIsMarker firstLineOf
  rw [List.cons_append, List.takeWhile_cons]
  rw [show (('\x22' : Char) != '\n') = true from by decide, if_pos rfl]
  rw [@List.takeWhile_append_of_pos Char (fun x => x != '\n') (nm ++ ['\x22']) w2 (by
    intro a ha
    rcases List.mem_append.mp ha with ha | ha
    · simpa using (hq a ha).2
    · simp at ha; simp [ha])]
  rw [show ('\x22' : Char) :: ((nm ++ ['\x22']) ++ (w2.takeWhile fun x => x != '\n'))
      = ('\x22' :: nm) ++ ('\x22' :: (w2.takeWhile fun x => x != '\n')) from by simp]
  exact isBlockStart_shape nm _ hnm (fun c hc => (hq c hc).1)

end JStackA

namespace JStackA

/-! ### Splitter loop invariant -/

theorem splitStep_inv (acc : List (List Char) × List Char) (line : List Char)
    (hinv : splitInv acc) (hnl : ∀ c ∈ line, c ≠ '\n') :
    splitInv (splitStep acc line) := by
  obtain ⟨htail, hcur⟩ := hinv
  unfold splitStep
  by_cases hb : (isBlockStart line && !acc.2.isEmpty) = true
  · rw [if_pos hb]
    simp only [Bool.and_eq_true, Bool.not_eq_true'] at hb
    constructor
    · intro b hbm
      cases hacc1 : acc.1 with
      | nil => rw [hacc1] at hbm; simp at hbm
      | cons b0 bs =>
        rw [hacc1] at hbm
        rw [show ((b0 :: bs) ++ [pyStrip acc.2]).tail = bs ++ [pyStrip acc.2]
          from rfl] at hbm
        rcases List.mem_append.mp hbm with hbm | hbm
        · exact htail b (by rw [hacc1]; exact hbm)
        · simp only [List.mem_singleton] at hbm
          rw [hbm]
          exact blockHeadIsMarker_pyStrip _ (hcur (by rw [hacc1]; simp))
    · intro _
      exact markerShaped_of_isBlockStart line hb.1 hnl
  · rw [if_neg hb]
    constructor
    · exact htail
    · intro h1
      have hm := hcur h1
      have hne := markerShaped_ne_nil _ hm
      rw [if_neg (by simpa [List.isEmpty_iff] using hne)]
      exact markerShaped_append _ _ hm

theorem foldl_splitInv (lines : List (List Char)) :
    ∀ acc, splitInv acc → (∀ l ∈ lines, ∀ c ∈ l, c ≠ '\n') →
      splitInv (lines.foldl splitStep acc) := by
  induction lines with
  | nil => intro acc h _; simpa
  | cons x xs ih =>
    intro acc h hl
    rw [List.foldl_cons]
    exact ih _ (splitStep_inv acc x h (hl x (List.mem_cons_self x xs)))
      (fun l hll => hl l (List.mem_cons_of_mem x hll))

/-- Every block the splitter emits after the first one begins with a
header-marker line (helper for the block-splitter claim). -/
theorem split_tail_marker (content : List Char) (b : List Char)
    (hb : b ∈ (split_thread_blocks content).tail) :
    blockHeadIsMarker b = true := by
  have hinv : splitInv ((splitOnNl content).foldl splitStep ([], [])) :=
    foldl_splitInv _ ([], []) ⟨by simp, by simp⟩
      (fun l hl => no_nl_of_mem_splitOnNl content l hl)
  unfold split_thread_blocks at hb
  dsimp only at hb
  obtain ⟨htail, hcur⟩ := hinv
  by_cases he : (pyStrip ((splitOnNl content).foldl splitStep ([], [])).2).isEmpty
  · rw [if_pos he] at hb
    exact htail b hb
  · rw [if_neg he] at hb
    cases hacc1 : ((splitOnNl content).foldl splitStep ([], [])).1 with
    | nil => rw [hacc1] at hb; simp at hb
    | cons b0 bs =>
      rw [hacc1] at hb
      rw [show ((b0 :: bs) ++
          [pyStrip ((splitOnNl content).foldl splitStep ([], [])).2]).tail
          = bs ++ [pyStrip ((splitOnNl content).foldl splitStep ([], [])).2]
        from rfl] at hb
      rcases List.mem_append.mp hb with hb | hb
      · exact htail b (by rw [hacc1]; exact hb)
      · simp only [List.mem_singleton] at hb
        rw [hb]
        exact blockHeadIsMarker_pyStrip _ (hcur (by rw [hacc1]; simp))

end JStackA

namespace JStackA

/-! ### Aggregator: the three state lists are filters of the input -/

theorem analyzeStep_blocked (acc : Stats) (t : ThreadInfo) :
    (analyzeStep acc t).blocked_threads =
      if blockedP t then acc.blocked_threads ++ [t] else acc.blocked_threads := by
  unfold analyzeStep blockedP
  dsimp only
  split_ifs <;> simp_all

theorem analyzeStep_waiting (acc : Stats) (t : ThreadInfo) :
    (analyzeStep acc t).waiting_threads =
      if waitingP t then acc.waiting_threads ++ [t] else acc.waiting_threads := by
  unfold analyzeStep waitingP blockedP
  dsimp only
  split_ifs <;> simp_all

theorem analyzeStep_runnable (acc : Stats) (t : ThreadInfo) :
    (analyzeStep acc t).runnable_threads =
      if runnableP t then acc.runnable_threads ++ [t] else acc.runnable_threads := by
  unfold analyzeStep runnableP blockedP
  dsimp only
  split_ifs <;> simp_all

theorem foldl_analyze_lists (threads : List ThreadInfo) :
    ∀ acc : Stats,
      (threads.foldl analyzeStep acc).blocked_threads =
        acc.blocked_threads ++ threads.filter blockedP ∧
      (threads.foldl analyzeStep acc).waiting_threads =
        acc.waiting_threads ++ threads.filter waitingP ∧
      (threads.foldl analyzeStep acc).runnable_threads =
        acc.runnable_threads ++ threads.filter runnableP := by
  induction threads with
  | nil => intro acc; simp
  | cons t ts ih =>
    intro acc
    rw [List.foldl_cons]
    obtain ⟨ihb, ihw, ihr⟩ := ih (analyzeStep acc t)
    refine ⟨?_, ?_, ?_⟩
    · rw [ihb, analyzeStep_blocked, List.filter_cons]
      by_cases h : blockedP t <;> simp [h]
    · rw [ihw, analyzeStep_waiting, List.filter_cons]
      by_cases h : waitingP t <;> simp [h]
    · rw [ihr, analyzeStep_runnable, List.filter_cons]
      by_cases h : runnableP t <;> simp [h]

theorem analyze_blocked (threads : List ThreadInfo) :
    (analyze_threads threads).blocked_threads = threads.filter blockedP := by
  unfold analyze_threads
  dsimp only
  rw [(foldl_analyze_lists threads _).1]
  simp

theorem analyze_waiting (threads : List ThreadInfo) :
    (analyze_threads threads).waiting_threads = threads.filter waitingP := by
  unfold analyze_threads
  dsimp only
  rw [(foldl_analyze_lists threads _).2.1]
  simp

theorem analyze_runnable (threads : List ThreadInfo) :
    (analyze_threads threads).runnable_threads = threads.filter runnableP := by
  unfold analyze_threads
  dsimp only
  rw [(foldl_analyze_lists threads _).2.2]
  simp

/-! ### Family classifier equals its first-match specification -/

theorem lookupGroup_eq_find (tbl : List (List Char × List Char)) (nm : List Char) :
    lookupGroup tbl nm =
      match tbl.find? (fun p => substrOf p.1 nm) with
      | some p => p.2
      | none => ("Other").data := by
  induction tbl with
  | nil => simp [lookupGroup]
  | cons p rest ih =>
    obtain ⟨pat, grp⟩ := p
    rw [show lookupGroup ((pat, grp) :: rest) nm =
        if substrOf pat nm then grp else lookupGroup rest nm from rfl]
    rw [List.find?_cons]
    by_cases h : substrOf pat nm
    · simp [h]
    · simp only [h, if_false]
      rw [ih]
      have hb : (fun p => substrOf p.1 nm) (pat, grp) = false := by
        simpa using h
      simp [hb, h]

/-! ### Deduplication is idempotent -/

theorem dedupAux_not_seen (ts : List ThreadInfo) :
    ∀ seen, ∀ t ∈ dedupAux seen ts, baseKey t.name ∉ seen := by
  induction ts with
  | nil => intro seen t ht; simp [dedupAux] at ht
  | cons x xs ih =>
    intro seen t ht
    unfold dedupAux at ht
    by_cases hx : baseKey x.name ∈ seen
    · rw [if_pos hx] at ht
      exact ih seen t ht
    · rw [if_neg hx] at ht
      rcases List.mem_cons.mp ht with rfl | ht
      · exact hx
      · have := ih _ t ht
        intro hcon
        exact this (List.mem_cons_of_mem _ hcon)

theorem dedupAux_pairwise (ts : List ThreadInfo) :
    ∀ seen, (dedupAux seen ts).Pairwise
      (fun a b => baseKey a.name ≠ baseKey b.name) := by
  induction ts with
  | nil => intro seen; simp [dedupAux]
  | cons x xs ih =>
    intro seen
    unfold dedupAux
    by_cases hx : baseKey x.name ∈ seen
    · rw [if_pos hx]; exact ih seen
    · rw [if_neg hx]
      refine List.Pairwise.cons ?_ (ih _)
      intro b hb
      have := dedupAux_not_seen xs _ b hb
      intro hcon
      exact this (by rw [← hcon]; exact List.mem_cons_self _ _)

theorem dedupAux_id (l : List ThreadInfo) :
    ∀ seen, l.Pairwise (fun a b => baseKey a.name ≠ baseKey b.name) →
      (∀ t ∈ l, baseKey t.name ∉ seen) → dedupAux seen l = l := by
  induction l with
  | nil => intro seen _ _; rfl
  | cons x xs ih =>
    intro seen hp hs
    unfold dedupAux
    rw [if_neg (hs x (List.mem_cons_self x xs))]
    congr 1
    refine ih _ (List.Pairwise.of_cons hp) ?_
    intro t ht
    intro hcon
    rcases List.mem_cons.mp hcon with hcon1 | hcon1
    · exact (List.rel_of_pairwise_cons hp ht) hcon1.symm
    · exact hs t (List.mem_cons_of_mem x ht) hcon1

end JStackA

namespace JStackA

/-! ### Claim theorems -/

/-- C1 (counterexample): it is not true that every block emitted by
`_split_thread_blocks` begins with a header-marker line — a banner line
preceding the first marker is emitted as the first block (and is
therefore contained in an emitted block, contrary to the claim). -/
theorem split_first_block_counterexample :
    ¬ (∀ b ∈ split_thread_blocks
        (("2024-01-01\n\x22main\x22 #1 prio=5 os_prio=0 tid=0x1 nid=0x2 runnable").data),
        blockHeadIsMarker b = true) ∧
    ("2024-01-01").data ∈ split_thread_blocks
        (("2024-01-01\n\x22main\x22 #1 prio=5 os_prio=0 tid=0x1 nid=0x2 runnable").data) := by
  constructor
  · intro h
    have := h (("2024-01-01").data) (by decide)
    simp [blockHeadIsMarker, firstLineOf, isBlockStart] at this
  · decide

/-- C1 (amended): every block emitted by the splitter EXCEPT POSSIBLY
THE FIRST begins with a header-marker line; lines before the first
marker are not excluded but form the first emitted block. -/
theorem split_blocks_after_first_start_at_marker (content : List Char)
    (b : List Char) (hb : b ∈ (split_thread_blocks content).tail) :
    blockHeadIsMarker b = true :=
  split_tail_marker content b hb

/-- Witness for the amended C1 at a concrete dump text. -/
theorem split_blocks_after_first_start_at_marker_witness :
    blockHeadIsMarker (("\x22b\x22 #2 y").data) = true :=
  split_blocks_after_first_start_at_marker
    (("\x22a\x22 #1 x\n\x22b\x22 #2 y").data) (("\x22b\x22 #2 y").data) (by decide)

/-- C2 (counterexample): with two state-declaration lines in one block
the parsed state is taken from the LAST one ("B"), not the first ("A")
as the claim states (`specStateFirst` renders the claim's rule). -/
theorem body_state_first_line_counterexample :
    ((parse_thread_block
        (("\x22T\x22 #1 prio=5 os_prio=0 tid=0x1 nid=0x2 r\njava.lang.Thread.State: A\njava.lang.Thread.State: B").data)).map
      ThreadInfo.state) = some (("B").data) ∧
    specStateFirst ((splitOnNl
        (("\x22T\x22 #1 prio=5 os_prio=0 tid=0x1 nid=0x2 r\njava.lang.Thread.State: A\njava.lang.Thread.State: B").data)).tail) =
      ("A").data ∧
    (("B").data : List Char) ≠ ("A").data := by
  refine ⟨by decide, by decide, by decide⟩

/-- C2 (amended): the parsed state is the trimmed result of deleting
every occurrence of the state-declaration prefix from the LAST body
line (after trimming) that begins with it; `UNKNOWN` if no body line
begins with the prefix. -/
theorem body_state_from_last_marker_line (block : List Char)
    (rec : ThreadInfo) (h : parse_thread_block block = some rec) :
    rec.state =
      match (((splitOnNl block).tail.map pyStrip).reverse.find?
          fun l => stateMarker.isPrefixOf l) with
      | some l => pyStrip (removeAll stateMarker l)
      | none => ("UNKNOWN").data :=
  parse_block_state_char block rec h

/-- Witness for the amended C2 at a concrete block with one state line. -/
theorem body_state_from_last_marker_line_witness :
    (ThreadInfo.mk (("T").data) (("1").data) false (("5").data) (("0").data)
        (("1").data) (("0x2").data) (("RUNNABLE").data) []).state =
      match (((splitOnNl
          (("\x22T\x22 #1 prio=5 os_prio=0 tid=0x1 nid=0x2 r\n java.lang.Thread.State: RUNNABLE").data)).tail.map
            pyStrip).reverse.find? fun l => stateMarker.isPrefixOf l) with
      | some l => pyStrip (removeAll stateMarker l)
      | none => ("UNKNOWN").data :=
  body_state_from_last_marker_line
    (("\x22T\x22 #1 prio=5 os_prio=0 tid=0x1 nid=0x2 r\n java.lang.Thread.State: RUNNABLE").data)
    (ThreadInfo.mk (("T").data) (("1").data) false (("5").data) (("0").data)
      (("1").data) (("0x2").data) (("RUNNABLE").data) []) (by decide)

/-- C3 (confirmed): a block whose first line fails the header grammar
yields no record (and the parser, a total function, raises nothing),
and the records obtained from a block list containing it are exactly
those obtained with the block removed. -/
theorem malformed_header_block_dropped (l r : List (List Char))
    (b : List Char)
    (hb : matchHeader (pyStrip ((splitOnNl b).headD [])) = none) :
    parse_thread_block b = none ∧
      parse_blocks (l ++ b :: r) = parse_blocks (l ++ r) := by
  have hn := parse_block_none b hb
  refine ⟨hn, ?_⟩
  unfold parse_blocks
  rw [List.filterMap_append, List.filterMap_append]
  congr 1
  simp [List.filterMap_cons, hn]

/-- Witness for C3: a malformed block (missing `nid=`) between two
well-formed blocks contributes nothing and leaves its siblings intact. -/
theorem malformed_header_block_dropped_witness :
    parse_thread_block (("\x22T\x22 #1 prio=5 os_prio=0 tid=0x1 runnable").data) = none ∧
      parse_blocks ([("\x22a\x22 #1 prio=5 os_prio=0 tid=0x1 nid=0x2 r").data] ++
          (("\x22T\x22 #1 prio=5 os_prio=0 tid=0x1 runnable").data) ::
          [("\x22b\x22 #2 prio=5 os_prio=0 tid=0x3 nid=0x4 r").data]) =
        parse_blocks ([("\x22a\x22 #1 prio=5 os_prio=0 tid=0x1 nid=0x2 r").data] ++
          [("\x22b\x22 #2 prio=5 os_prio=0 tid=0x3 nid=0x4 r").data]) :=
  malformed_header_block_dropped
    [("\x22a\x22 #1 prio=5 os_prio=0 tid=0x1 nid=0x2 r").data]
    [("\x22b\x22 #2 prio=5 os_prio=0 tid=0x3 nid=0x4 r").data]
    (("\x22T\x22 #1 prio=5 os_prio=0 tid=0x1 runnable").data) (by decide)

/-- C4 (code bug): a record with an empty stack contributes NOTHING to
the stack-pattern counter — the guard `if thread.stack_trace:` makes
the `"empty"` branch of the key expression unreachable, so the claimed
count of 1 under the key `"empty"` never happens. -/
theorem empty_stack_thread_uncounted :
    (analyze_threads [ThreadInfo.mk (("T").data) (("1").data) false
        (("5").data) (("0").data) (("1").data) (("0x2").data)
        (("RUNNABLE").data) []]).stack_traces = [] ∧
    ((("empty").data, 1) ∉ (analyze_threads [ThreadInfo.mk (("T").data)
        (("1").data) false (("5").data) (("0").data) (("1").data)
        (("0x2").data) (("RUNNABLE").data) []]).stack_traces) ∧
    (analyze_threads [ThreadInfo.mk (("T").data) (("1").data) false
        (("5").data) (("0").data) (("1").data) (("0x2").data)
        (("RUNNABLE").data) []]).total_threads = 1 := by
  refine ⟨by decide, by decide, by decide⟩

/-- C5 (counterexample): for the header text `... tid=0x2a ...` the
stored `tid` is `2a` — the `0x` prefix is NOT preserved, contrary to
the claim. -/
theorem tid_keeps_prefix_counterexample :
    ((parse_thread_block
        (("\x22T\x22 #1 prio=5 os_prio=0 tid=0x2a nid=0x3b runnable").data)).map
      ThreadInfo.tid) = some (("2a").data) ∧
    (("2a").data : List Char) ≠ ("0x2a").data := by
  refine ⟨by decide, by decide⟩

/-- C5 (amended): on every successful header match the stored `nid` is
`0x` followed by the non-empty hex-digit run read after `nid=0x` in the
header text, while the stored `tid` is the bare non-empty hex-digit run
read after `tid=0x`, without the `0x` prefix (it cannot even contain an
`x`); neither is interpreted numerically. -/
theorem tid_nid_stored_forms (line : List Char) (h : HeaderInfo)
    (hm : matchHeader line = some h) :
    h.tid ≠ [] ∧ (∀ c ∈ h.tid, isHexCh c = true) ∧ 'x' ∉ h.tid ∧
    ∃ a b c nd, h.nid = '0' :: 'x' :: nd ∧ nd ≠ [] ∧
      (∀ x ∈ nd, isHexCh x = true) ∧
      line = a ++ ("tid=0x").data ++ h.tid ++ b ++ ("nid=0x").data ++ nd ++ c := by
  obtain ⟨hn, hq, ht, hhex, a, b, c, nd, h1, h2, h3, h4⟩ :=
    matchHeader_shape line h hm
  refine ⟨ht, hhex, ?_, a, b, c, nd, h1, h2, h3, h4⟩
  intro hx
  exact absurd (hhex 'x' hx) (by decide)

/-- Witness for the amended C5 at a concrete header line. -/
theorem tid_nid_stored_forms_witness :
    (HeaderInfo.mk (("T").data) (("1").data) false (("5").data) (("0").data)
        (("2a").data) (("0x3b").data)).tid ≠ [] ∧
    (∀ c ∈ (HeaderInfo.mk (("T").data) (("1").data) false (("5").data)
        (("0").data) (("2a").data) (("0x3b").data)).tid, isHexCh c = true) ∧
    'x' ∉ (HeaderInfo.mk (("T").data) (("1").data) false (("5").data)
        (("0").data) (("2a").data) (("0x3b").data)).tid ∧
    ∃ a b c nd,
      (HeaderInfo.mk (("T").data) (("1").data) false (("5").data) (("0").data)
        (("2a").data) (("0x3b").data)).nid = '0' :: 'x' :: nd ∧ nd ≠ [] ∧
      (∀ x ∈ nd, isHexCh x = true) ∧
      (("\x22T\x22 #1 prio=5 os_prio=0 tid=0x2a nid=0x3b runnable").data) =
        a ++ ("tid=0x").data ++
          (HeaderInfo.mk (("T").data) (("1").data) false (("5").data)
            (("0").data) (("2a").data) (("0x3b").data)).tid ++ b ++
          ("nid=0x").data ++ nd ++ c :=
  tid_nid_stored_forms
    (("\x22T\x22 #1 prio=5 os_prio=0 tid=0x2a nid=0x3b runnable").data)
    (HeaderInfo.mk (("T").data) (("1").data) false (("5").data) (("0").data)
      (("2a").data) (("0x3b").data)) (by decide)

end JStackA

namespace JStackA

/-- C6 (counterexample): membership in the state lists is
case-sensitive — a thread whose state is `runnable` (lowercase) lands
in NO list while the same thread with state `RUNNABLE` lands in the
runnable list, so records whose states differ only in case do not land
in the same list; moreover a `TIMED_WAITING` thread IS in the waiting
list, which the claim excludes ("contains waiting but not timed"). -/
theorem state_lists_case_counterexample :
    (analyze_threads [ThreadInfo.mk (("T").data) (("1").data) false
        (("5").data) (("0").data) (("1").data) (("0x2").data)
        (("runnable").data) []]).runnable_threads = [] ∧
    (analyze_threads [ThreadInfo.mk (("T").data) (("1").data) false
        (("5").data) (("0").data) (("1").data) (("0x2").data)
        (("RUNNABLE").data) []]).runnable_threads =
      [ThreadInfo.mk (("T").data) (("1").data) false (("5").data)
        (("0").data) (("1").data) (("0x2").data) (("RUNNABLE").data) []] ∧
    (analyze_threads [ThreadInfo.mk (("T").data) (("1").data) false
        (("5").data) (("0").data) (("1").data) (("0x2").data)
        (("TIMED_WAITING").data) []]).waiting_threads =
      [ThreadInfo.mk (("T").data) (("1").data) false (("5").data)
        (("0").data) (("1").data) (("0x2").data) (("TIMED_WAITING").data) []] := by
  refine ⟨by decide, by decide, by decide⟩

/-- C6 (amended): membership in the three statistics lists is decided
by CASE-SENSITIVE substring tests on the raw state, in if/elif order:
blocked ↔ contains `BLOCKED`; waiting ↔ not blocked and contains
`WAITING` or `TIMED_WAITING`; runnable ↔ neither and contains
`RUNNABLE`; consequently each record is in at most one of the three
lists. -/
theorem state_lists_membership (threads : List ThreadInfo) (t : ThreadInfo) :
    (t ∈ (analyze_threads threads).blocked_threads ↔
      t ∈ threads ∧ blockedP t = true) ∧
    (t ∈ (analyze_threads threads).waiting_threads ↔
      t ∈ threads ∧ waitingP t = true) ∧
    (t ∈ (analyze_threads threads).runnable_threads ↔
      t ∈ threads ∧ runnableP t = true) ∧
    ¬(t ∈ (analyze_threads threads).blocked_threads ∧
      t ∈ (analyze_threads threads).waiting_threads) ∧
    ¬(t ∈ (analyze_threads threads).blocked_threads ∧
      t ∈ (analyze_threads threads).runnable_threads) ∧
    ¬(t ∈ (analyze_threads threads).waiting_threads ∧
      t ∈ (analyze_threads threads).runnable_threads) := by
  rw [analyze_blocked, analyze_waiting, analyze_runnable]
  refine ⟨List.mem_filter, List.mem_filter, List.mem_filter, ?_, ?_, ?_⟩
  · rintro ⟨h1, h2⟩
    have hb := (List.mem_filter.mp h1).2
    have hw := (List.mem_filter.mp h2).2
    unfold waitingP at hw
    simp [hb] at hw
  · rintro ⟨h1, h2⟩
    have hb := (List.mem_filter.mp h1).2
    have hr := (List.mem_filter.mp h2).2
    unfold runnableP at hr
    simp [hb] at hr
  · rintro ⟨h1, h2⟩
    have hw := (List.mem_filter.mp h1).2
    have hr := (List.mem_filter.mp h2).2
    unfold waitingP at hw
    unfold runnableP at hr
    simp only [Bool.and_eq_true, Bool.not_eq_true'] at hw hr
    simp [hw.2] at hr

/-- C7 (counterexample): a well-formed block whose state line carries
nothing after the prefix parses to a record with an EMPTY state,
contrary to the claimed invariant. -/
theorem state_nonempty_counterexample :
    ((parse_thread_block
        (("\x22T\x22 #1 prio=5 os_prio=0 tid=0x1 nid=0x2 r\njava.lang.Thread.State:").data)).map
      ThreadInfo.state) = some [] := by
  decide

/-- C7 (amended): for every accepted block the record's name is
non-empty — unconditionally, since the header pattern requires a
non-empty `[^"]+` name; the state is also non-empty PROVIDED every
state-declaration line in the body still has non-empty text after
deleting the prefix and trimming (in particular, with no state line at
all the state is the non-empty `UNKNOWN`). -/
theorem parsed_name_nonempty_state_conditional (block : List Char)
    (rec : ThreadInfo) (h : parse_thread_block block = some rec) :
    rec.name ≠ [] ∧
      ((∀ l ∈ (splitOnNl block).tail,
          stateMarker.isPrefixOf (pyStrip l) = true →
            pyStrip (removeAll stateMarker (pyStrip l)) ≠ []) →
        rec.state ≠ []) := by
  obtain ⟨hd, tl, hi, hs, hh, hname, _, _, _, _, _, _, _, _⟩ :=
    parse_block_inv block rec h
  have hc := parse_block_state_char block rec h
  rw [hs] at hc
  simp only [List.tail_cons] at hc
  constructor
  · rw [hname]
    exact (matchHeader_shape _ _ hh).1
  · intro hstates
    rw [hs] at hstates
    simp only [List.tail_cons] at hstates
    cases hf : ((tl.map pyStrip).reverse.find? fun l => stateMarker.isPrefixOf l) with
    | none =>
      rw [hf] at hc
      dsimp only at hc
      rw [hc]
      decide
    | some x =>
      rw [hf] at hc
      dsimp only at hc
      have hmem := List.mem_of_find?_eq_some hf
      have hpred := List.find?_some hf
      rw [List.mem_reverse] at hmem
      obtain ⟨lraw, hlraw, rfl⟩ := List.mem_map.mp hmem
      rw [hc]
      exact hstates lraw hlraw hpred

/-- Witness for the amended C7 at a concrete well-formed block. -/
theorem parsed_name_nonempty_state_conditional_witness :
    (ThreadInfo.mk (("T").data) (("1").data) false (("5").data) (("0").data)
        (("1").data) (("0x2").data) (("RUNNABLE").data) []).name ≠ [] ∧
    ((∀ l ∈ (splitOnNl
        (("\x22T\x22 #1 prio=5 os_prio=0 tid=0x1 nid=0x2 r\n java.lang.Thread.State: RUNNABLE").data)).tail,
        stateMarker.isPrefixOf (pyStrip l) = true →
          pyStrip (removeAll stateMarker (pyStrip l)) ≠ []) →
      (ThreadInfo.mk (("T").data) (("1").data) false (("5").data) (("0").data)
        (("1").data) (("0x2").data) (("RUNNABLE").data) []).state ≠ []) :=
  parsed_name_nonempty_state_conditional
    (("\x22T\x22 #1 prio=5 os_prio=0 tid=0x1 nid=0x2 r\n java.lang.Thread.State: RUNNABLE").data)
    (ThreadInfo.mk (("T").data) (("1").data) false (("5").data) (("0").data)
      (("1").data) (("0x2").data) (("RUNNABLE").data) []) (by decide)

/-- C8 (confirmed): family classification is a total function of the
name equal to its specification: the label of the FIRST pair of the
fixed table whose substring occurs in the name, and `Other` when no
pair matches; totality and determinism are inherent (both sides are
total functions, so every name maps to exactly one label and repeated
classification agrees). -/
theorem family_classification_first_match (nm : List Char) :
    get_thread_group nm = specFamilyClassify nm := by
  unfold get_thread_group specFamilyClassify
  exact lookupGroup_eq_find groupTable nm

/-- C9 (confirmed): deduplication by normalized base name is
idempotent. -/
theorem deduplication_idempotent (threads : List ThreadInfo) :
    deduplicate_threads_by_name_pattern
        (deduplicate_threads_by_name_pattern threads) =
      deduplicate_threads_by_name_pattern threads := by
  unfold deduplicate_threads_by_name_pattern
  exact dedupAux_id _ [] (dedupAux_pairwise threads []) (by intro t _; simp)

/-- C10 (confirmed): an empty thread list yields `total_threads = 0`,
empty state/group/stack tables (so no report row exists), and the
guarded percentage computation returns 0 for every count instead of
dividing by the zero total. -/
theorem zero_threads_zero_percentages :
    (analyze_threads []).total_threads = 0 ∧
    (analyze_threads []).states = [] ∧
    (analyze_threads []).thread_groups = [] ∧
    (analyze_threads []).stack_traces = [] ∧
    ∀ count : Nat, pctOf count ((analyze_threads []).total_threads) = 0 := by
  refine ⟨rfl, rfl, rfl, rfl, ?_⟩
  intro count
  rw [show (analyze_threads []).total_threads = 0 from rfl]
  simp [pctOf]

end JStackA
